import Mathlib

/-!
Verification development for the piece-table text buffer of this repository
(src/vs/editor/common/model/textBuffer2.ts) and the indentation guesser
(spacesDiff).  The TypeScript code is shallowly embedded: the red-black tree
with parent pointers is modelled as an array store of nodes indexed by
`NodeId` (index 0 is the shared SENTINEL), and every `while` loop of the
source becomes a fuel-indexed structural recursion.  JS strings are
`List Char`; JS numbers are `Int`.
-/

set_option linter.unusedVariables false

/-! ## JS string primitives -/

/-- JS `String.prototype.substring(a, b)`: clamps both arguments into
`[0, length]` and swaps them when `a > b`. -/
def jsSubstring (s : List Char) (a b : Int) : List Char :=
  let n : Int := s.length
  let a2 := min (max a 0) n
  let b2 := min (max b 0) n
  let lo := min a2 b2
  let hi := max a2 b2
  (s.take hi.toNat).drop lo.toNat

/-- JS `String.prototype.substr(start, len)` (start clamped into `[0, length]`,
negative length treated as 0). -/
def jsSubstr (s : List Char) (start len : Int) : List Char :=
  let n : Int := s.length
  let st := min (max start 0) n
  ((s.drop st.toNat).take len.toNat)

/-- A write into a `Uint32Array` stores the value modulo 2^32. -/
def toUint32 (x : Int) : Int := x.emod 4294967296

/-! ## Prefix-sum vector

Modelled from the spec: `PrefixSumComputer`
(vs/editor/common/viewModel/prefixSumComputer.ts) is part of the repository
but not under src/.  Spec 4.A: an indexed integer container supporting
`getAccumulatedValue(i) = Σ v[0..i]` and `getIndexOf(offset)` returning
`(index, remainder)` with `Σ v[0..index-1] ≤ offset < Σ v[0..index]`, plus
`changeValue`, `insertValues`, `removeValues`.  For `i < 0`,
`getAccumulatedValue` returns 0 (the callers in textBuffer2.ts rely on this);
for `offset` at or beyond the total, `getIndexOf` clamps to the last index,
returning the leftover as the remainder.  The vector itself is the list of
per-line values. -/

/-- Modelled from the spec: `getAccumulatedValue(i) = Σ v[0..i]`; 0 for a
negative index. -/
def psAccumulatedValue (values : List Int) (index : Int) : Int :=
  if index < 0 then 0
  else ((values.take (index.toNat + 1)).foldl (· + ·) 0)

/-- Modelled from the spec: `getIndexOf(offset) = (index, remainder)` with
`Σ v[0..index-1] ≤ offset < Σ v[0..index]`, clamped to the last index when
`offset` reaches the total. -/
def psIndexOf (values : List Int) (offset : Int) : Nat × Int :=
  match values with
  | [] => (0, offset)
  | [_] => (0, offset)
  | v :: rest =>
    if offset < v then (0, offset)
    else
      let r := psIndexOf rest (offset - v)
      (r.1 + 1, r.2)

/-- Modelled from the spec: `changeValue(i, v)` (stores as a Uint32). -/
def psChangeValue (values : List Int) (index : Int) (value : Int) : List Int :=
  if index < 0 then values
  else values.set index.toNat (toUint32 value)

/-- Modelled from the spec: `insertValues(i, vs)`. -/
def psInsertValues (values : List Int) (index : Int) (vs : List Int) : List Int :=
  values.take index.toNat ++ vs ++ values.drop index.toNat

/-- Modelled from the spec: `removeValues(i, n)`. -/
def psRemoveValues (values : List Int) (index cnt : Int) : List Int :=
  values.take index.toNat ++ values.drop (index.toNat + cnt.toNat)

/-- Read `values[i]` (0 when out of range, like a `Uint32Array` hole). -/
def psGet (values : List Int) (index : Int) : Int :=
  if index < 0 then 0 else values.getD index.toNat 0

/-! ## Pieces, nodes, the tree store -/

/-- `Piece` from textBuffer2.ts: a descriptor into one of the two buffers,
with its per-line length vector (the `PrefixSumComputer`'s values). -/
structure Piece where
  isOriginalBuffer : Bool
  offset : Int
  length : Int
  lineFeedCnt : Int
  lineStarts : List Int
  deriving Repr, DecidableEq, Inhabited

inductive NodeColor where
  | black
  | red
  deriving Repr, DecidableEq, Inhabited

/-- Index of a node in the store; 0 is the shared SENTINEL (also standing for
the TS `null`, which no surviving code path distinguishes from SENTINEL). -/
abbrev NodeId := Nat

/-- `TreeNode` from textBuffer2.ts.  The SENTINEL's `piece` is a dummy of
length 0 and lineFeedCnt 0, matching the `x.piece ? x.piece.length : 0`
guards of the source. -/
structure TreeNode where
  parent : NodeId
  left : NodeId
  right : NodeId
  color : NodeColor
  piece : Piece
  size_left : Int
  lf_left : Int
  deriving Repr, DecidableEq, Inhabited

def sentinelPiece : Piece :=
  { isOriginalBuffer := true, offset := 0, length := 0, lineFeedCnt := 0, lineStarts := [0] }

def sentinelNode : TreeNode :=
  { parent := 0, left := 0, right := 0, color := .black, piece := sentinelPiece,
    size_left := 0, lf_left := 0 }

/-- The `TextBuffer` state: node store, root pointer, the two byte buffers
and the construction-time fields. -/
structure PTBuffer where
  nodes : Array TreeNode
  root : NodeId
  originalBuffer : List Char
  changeBuffer : List Char
  BOM : List Char
  EOL : List Char
  mightContainRTL : Bool
  mightContainNonBasicASCII : Bool
  deriving Repr, DecidableEq, Inhabited

def getN (buf : PTBuffer) (i : NodeId) : TreeNode :=
  buf.nodes.getD i sentinelNode

def setN (buf : PTBuffer) (i : NodeId) (n : TreeNode) : PTBuffer :=
  { buf with nodes := buf.nodes.setD i n }

def updN (buf : PTBuffer) (i : NodeId) (f : TreeNode → TreeNode) : PTBuffer :=
  setN buf i (f (getN buf i))

/-- Allocate a fresh node (TS `new TreeNode(piece, color)` followed by the
three SENTINEL assignments of rbInsertLeft/rbInsertRight). -/
def allocNode (buf : PTBuffer) (p : Piece) (c : NodeColor) : PTBuffer × NodeId :=
  let n : TreeNode :=
    { parent := 0, left := 0, right := 0, color := c, piece := p,
      size_left := 0, lf_left := 0 }
  ({ buf with nodes := buf.nodes.push n }, buf.nodes.size)

/-- Generous fuel bound: every climb or descent in the store visits at most
every node once. -/
def fuelOf (buf : PTBuffer) : Nat :=
  buf.nodes.size + 1

def pieceLen (buf : PTBuffer) (i : NodeId) : Int :=
  (getN buf i).piece.length

def pieceLF (buf : PTBuffer) (i : NodeId) : Int :=
  (getN buf i).piece.lineFeedCnt

/-! ## Basic tree walks -/

/-- `leftest`: follow left children down to the last non-sentinel node. -/
def leftest (buf : PTBuffer) : Nat → NodeId → NodeId
  | 0, x => x
  | fuel + 1, x =>
    if (getN buf x).left ≠ 0 then leftest buf fuel (getN buf x).left else x

/-- `righttest`: follow right children down to the last non-sentinel node. -/
def righttest (buf : PTBuffer) : Nat → NodeId → NodeId
  | 0, x => x
  | fuel + 1, x =>
    if (getN buf x).right ≠ 0 then righttest buf fuel (getN buf x).right else x

/-- `calculateSize(node)`: `size_left + piece.length + calculateSize(right)`,
0 at the sentinel. -/
def calculateSize (buf : PTBuffer) : Nat → NodeId → Int
  | 0, _ => 0
  | fuel + 1, i =>
    if i = 0 then 0
    else (getN buf i).size_left + pieceLen buf i + calculateSize buf fuel (getN buf i).right

/-- `calculateLF(node)`: `lf_left + piece.lineFeedCnt + calculateLF(right)`,
0 at the sentinel. -/
def calculateLF (buf : PTBuffer) : Nat → NodeId → Int
  | 0, _ => 0
  | fuel + 1, i =>
    if i = 0 then 0
    else (getN buf i).lf_left + pieceLF buf i + calculateLF buf fuel (getN buf i).right

/-! ## Rotations -/

/-- `leftRotate(tree, x)`: pivot `x`'s right child above it, repairing
`size_left`/`lf_left` on the pivot. -/
def leftRotate (buf : PTBuffer) (x : NodeId) : PTBuffer :=
  let y := (getN buf x).right
  -- fix size_left
  let buf := updN buf y (fun n =>
    { n with size_left := n.size_left + (getN buf x).size_left + pieceLen buf x,
             lf_left := n.lf_left + (getN buf x).lf_left + pieceLF buf x })
  let buf := updN buf x (fun n => { n with right := (getN buf y).left })
  let buf :=
    if (getN buf y).left ≠ 0 then
      updN buf ((getN buf y).left) (fun n => { n with parent := x })
    else buf
  let buf := updN buf y (fun n => { n with parent := (getN buf x).parent })
  let xp := (getN buf x).parent
  let buf :=
    if xp = 0 then { buf with root := y }
    else if (getN buf xp).left = x then updN buf xp (fun n => { n with left := y })
    else updN buf xp (fun n => { n with right := y })
  let buf := updN buf y (fun n => { n with left := x })
  updN buf x (fun n => { n with parent := y })

/-- `rightRotate(tree, y)`: pivot `y`'s left child above it, repairing
`size_left`/`lf_left` on `y`. -/
def rightRotate (buf : PTBuffer) (y : NodeId) : PTBuffer :=
  let x := (getN buf y).left
  let buf := updN buf y (fun n => { n with left := (getN buf x).right })
  let buf :=
    if (getN buf x).right ≠ 0 then
      updN buf ((getN buf x).right) (fun n => { n with parent := y })
    else buf
  let buf := updN buf x (fun n => { n with parent := (getN buf y).parent })
  -- fix size_left
  let buf := updN buf y (fun n =>
    { n with size_left := n.size_left - ((getN buf x).size_left + pieceLen buf x),
             lf_left := n.lf_left - ((getN buf x).lf_left + pieceLF buf x) })
  let yp := (getN buf y).parent
  let buf :=
    if yp = 0 then { buf with root := x }
    else if y = (getN buf yp).right then updN buf yp (fun n => { n with right := x })
    else updN buf yp (fun n => { n with left := x })
  let buf := updN buf x (fun n => { n with right := y })
  updN buf y (fun n => { n with parent := x })

/-! ## Metadata maintenance -/

/-- The loop of `updateMetadata`: walk from `x` to the root, adding the deltas
to `size_left`/`lf_left` of each parent whose left child is on the path. -/
def updateMetadata (buf : PTBuffer) : Nat → NodeId → Int → Int → PTBuffer
  | 0, _, _, _ => buf
  | fuel + 1, x, delta, lf_delta =>
    if x ≠ buf.root ∧ x ≠ 0 then
      let p := (getN buf x).parent
      let buf :=
        if (getN buf p).left = x then
          updN buf p (fun n =>
            { n with size_left := n.size_left + delta, lf_left := n.lf_left + lf_delta })
        else buf
      updateMetadata buf fuel p delta lf_delta
    else buf

/-- First loop of `recomputeMetadata`: go upwards until the walked node is no
longer a right child. -/
def climbWhileRight (buf : PTBuffer) : Nat → NodeId → NodeId
  | 0, x => x
  | fuel + 1, x =>
    if x ≠ buf.root ∧ x = (getN buf ((getN buf x).parent)).right then
      climbWhileRight buf fuel ((getN buf x).parent)
    else x

/-- Second loop of `recomputeMetadata`: propagate the deltas to the root
(skipped entirely when both deltas are 0, like the source's loop guard). -/
def recomputePropagate (buf : PTBuffer) : Nat → NodeId → Int → Int → PTBuffer
  | 0, _, _, _ => buf
  | fuel + 1, x, delta, lf_delta =>
    if x ≠ buf.root ∧ (delta ≠ 0 ∨ lf_delta ≠ 0) then
      let p := (getN buf x).parent
      let buf :=
        if (getN buf p).left = x then
          updN buf p (fun n =>
            { n with size_left := n.size_left + delta, lf_left := n.lf_left + lf_delta })
        else buf
      recomputePropagate buf fuel p delta lf_delta
    else buf

/-- `recomputeMetadata(tree, x)`: climb to the first ancestor whose left
subtree changed, recompute its `size_left`/`lf_left` directly and propagate
the difference upwards. -/
def recomputeMetadata (buf : PTBuffer) (x : NodeId) : PTBuffer :=
  if x = buf.root then buf
  else
    let x1 := climbWhileRight buf (fuelOf buf) x
    if x1 = buf.root then buf
    else
      let xp := (getN buf x1).parent
      let delta := calculateSize buf (fuelOf buf) ((getN buf xp).left) - (getN buf xp).size_left
      let lf_delta := calculateLF buf (fuelOf buf) ((getN buf xp).left) - (getN buf xp).lf_left
      let buf := updN buf xp (fun n =>
        { n with size_left := n.size_left + delta, lf_left := n.lf_left + lf_delta })
      recomputePropagate buf (fuelOf buf) xp delta lf_delta

/-! ## Insertion fixup -/

/-- One pass of the `fixInsert` recolour/rotate loop. -/
def fixInsertLoop (buf : PTBuffer) : Nat → NodeId → PTBuffer
  | 0, _ => buf
  | fuel + 1, x =>
    if x ≠ buf.root ∧ (getN buf ((getN buf x).parent)).color = .red then
      let p := (getN buf x).parent
      let g := (getN buf p).parent
      if p = (getN buf g).left then
        let y := (getN buf g).right
        if (getN buf y).color = .red then
          let buf := updN buf p (fun n => { n with color := .black })
          let buf := updN buf y (fun n => { n with color := .black })
          let buf := updN buf g (fun n => { n with color := .red })
          fixInsertLoop buf fuel g
        else
          let (buf, x) :=
            if x = (getN buf p).right then
              let x := p
              (leftRotate buf x, x)
            else (buf, x)
          let buf := updN buf ((getN buf x).parent) (fun n => { n with color := .black })
          let buf := updN buf ((getN buf ((getN buf x).parent)).parent)
            (fun n => { n with color := .red })
          let buf := rightRotate buf ((getN buf ((getN buf x).parent)).parent)
          fixInsertLoop buf fuel x
      else
        let y := (getN buf g).left
        if (getN buf y).color = .red then
          let buf := updN buf p (fun n => { n with color := .black })
          let buf := updN buf y (fun n => { n with color := .black })
          let buf := updN buf g (fun n => { n with color := .red })
          fixInsertLoop buf fuel g
        else
          let (buf, x) :=
            if x = (getN buf p).left then
              let x := p
              (rightRotate buf x, x)
            else (buf, x)
          let buf := updN buf ((getN buf x).parent) (fun n => { n with color := .black })
          let buf := updN buf ((getN buf ((getN buf x).parent)).parent)
            (fun n => { n with color := .red })
          let buf := leftRotate buf ((getN buf ((getN buf x).parent)).parent)
          fixInsertLoop buf fuel x
    else buf

/-- `fixInsert(tree, x)`: recompute metadata up the spine, run the CLRS
recolour/rotate loop, then blacken the root. -/
def fixInsert (buf : PTBuffer) (x : NodeId) : PTBuffer :=
  let buf := recomputeMetadata buf x
  let buf := fixInsertLoop buf (fuelOf buf) x
  updN buf buf.root (fun n => { n with color := .black })

/-- `rbInsertRight(tree, node, p)`: attach a new red node as the inorder
successor of `node` (or as the root of an empty tree), then fix up. -/
def rbInsertRight (buf : PTBuffer) (node : NodeId) (p : Piece) : PTBuffer :=
  let (buf, z) := allocNode buf p .red
  if buf.root = 0 then
    let buf := { buf with root := z }
    let buf := updN buf z (fun n => { n with color := .black })
    fixInsert buf z
  else if (getN buf node).right = 0 then
    let buf := updN buf node (fun n => { n with right := z })
    let buf := updN buf z (fun n => { n with parent := node })
    fixInsert buf z
  else
    let nextNode := leftest buf (fuelOf buf) ((getN buf node).right)
    let buf := updN buf nextNode (fun n => { n with left := z })
    let buf := updN buf z (fun n => { n with parent := nextNode })
    fixInsert buf z

/-- `rbInsertLeft(tree, node, p)`: attach a new red node as the inorder
predecessor of `node` (or as the root of an empty tree), then fix up. -/
def rbInsertLeft (buf : PTBuffer) (node : NodeId) (p : Piece) : PTBuffer :=
  let (buf, z) := allocNode buf p .red
  if buf.root = 0 then
    let buf := { buf with root := z }
    let buf := updN buf z (fun n => { n with color := .black })
    fixInsert buf z
  else if (getN buf node).left = 0 then
    let buf := updN buf node (fun n => { n with left := z })
    let buf := updN buf z (fun n => { n with parent := node })
    fixInsert buf z
  else
    let prevNode := righttest buf (fuelOf buf) ((getN buf node).left)
    let buf := updN buf prevNode (fun n => { n with right := z })
    let buf := updN buf z (fun n => { n with parent := prevNode })
    fixInsert buf z

/-! ## Inorder neighbours -/

/-- Climb of `TreeNode.next`: go up while the node is a right child. -/
def nextClimb (buf : PTBuffer) : Nat → NodeId → NodeId
  | 0, x => x
  | fuel + 1, x =>
    if (getN buf x).parent ≠ 0 then
      if (getN buf ((getN buf x).parent)).left = x then x
      else nextClimb buf fuel ((getN buf x).parent)
    else x

/-- `TreeNode.next()`: the inorder successor, SENTINEL at the end. -/
def nextNode (buf : PTBuffer) (x : NodeId) : NodeId :=
  if (getN buf x).right ≠ 0 then leftest buf (fuelOf buf) ((getN buf x).right)
  else
    let n := nextClimb buf (fuelOf buf) x
    if (getN buf n).parent = 0 then 0 else (getN buf n).parent

/-- Climb of `TreeNode.prev`: go up while the node is a left child. -/
def prevClimb (buf : PTBuffer) : Nat → NodeId → NodeId
  | 0, x => x
  | fuel + 1, x =>
    if (getN buf x).parent ≠ 0 then
      if (getN buf ((getN buf x).parent)).right = x then x
      else prevClimb buf fuel ((getN buf x).parent)
    else x

/-- `TreeNode.prev()`: the inorder predecessor, SENTINEL at the start. -/
def prevNode (buf : PTBuffer) (x : NodeId) : NodeId :=
  if (getN buf x).left ≠ 0 then righttest buf (fuelOf buf) ((getN buf x).left)
  else
    let n := prevClimb buf (fuelOf buf) x
    if (getN buf n).parent = 0 then 0 else (getN buf n).parent

/-- `resetSentinel()`: `SENTINEL.parent = SENTINEL`. -/
def resetSentinel (buf : PTBuffer) : PTBuffer :=
  updN buf 0 (fun n => { n with parent := 0 })

/-- `TreeNode.detach()`: null out the pointers of a removed node. -/
def detachNode (buf : PTBuffer) (z : NodeId) : PTBuffer :=
  updN buf z (fun n => { n with parent := 0, left := 0, right := 0 })

/-! ## Deletion -/

/-- The RB-DELETE-FIXUP loop of `rbDelete`, returning the final store and the
node to blacken. -/
def fixDeleteLoop (buf : PTBuffer) : Nat → NodeId → PTBuffer × NodeId
  | 0, x => (buf, x)
  | fuel + 1, x =>
    if x ≠ buf.root ∧ (getN buf x).color = .black then
      if x = (getN buf ((getN buf x).parent)).left then
        let w := (getN buf ((getN buf x).parent)).right
        let (buf, w) :=
          if (getN buf w).color = .red then
            let buf := updN buf w (fun n => { n with color := .black })
            let buf := updN buf ((getN buf x).parent) (fun n => { n with color := .red })
            let buf := leftRotate buf ((getN buf x).parent)
            (buf, (getN buf ((getN buf x).parent)).right)
          else (buf, w)
        if (getN buf ((getN buf w).left)).color = .black ∧
            (getN buf ((getN buf w).right)).color = .black then
          let buf := updN buf w (fun n => { n with color := .red })
          fixDeleteLoop buf fuel ((getN buf x).parent)
        else
          let (buf, w) :=
            if (getN buf ((getN buf w).right)).color = .black then
              let buf := updN buf ((getN buf w).left) (fun n => { n with color := .black })
              let buf := updN buf w (fun n => { n with color := .red })
              let buf := rightRotate buf w
              (buf, (getN buf ((getN buf x).parent)).right)
            else (buf, w)
          let buf := updN buf w (fun n =>
            { n with color := (getN buf ((getN buf x).parent)).color })
          let buf := updN buf ((getN buf x).parent) (fun n => { n with color := .black })
          let buf := updN buf ((getN buf w).right) (fun n => { n with color := .black })
          let buf := leftRotate buf ((getN buf x).parent)
          fixDeleteLoop buf fuel buf.root
      else
        let w := (getN buf ((getN buf x).parent)).left
        let (buf, w) :=
          if (getN buf w).color = .red then
            let buf := updN buf w (fun n => { n with color := .black })
            let buf := updN buf ((getN buf x).parent) (fun n => { n with color := .red })
            let buf := rightRotate buf ((getN buf x).parent)
            (buf, (getN buf ((getN buf x).parent)).left)
          else (buf, w)
        if (getN buf ((getN buf w).left)).color = .black ∧
            (getN buf ((getN buf w).right)).color = .black then
          let buf := updN buf w (fun n => { n with color := .red })
          fixDeleteLoop buf fuel ((getN buf x).parent)
        else
          let (buf, w) :=
            if (getN buf ((getN buf w).left)).color = .black then
              let buf := updN buf ((getN buf w).right) (fun n => { n with color := .black })
              let buf := updN buf w (fun n => { n with color := .red })
              let buf := leftRotate buf w
              (buf, (getN buf ((getN buf x).parent)).left)
            else (buf, w)
          let buf := updN buf w (fun n =>
            { n with color := (getN buf ((getN buf x).parent)).color })
          let buf := updN buf ((getN buf x).parent) (fun n => { n with color := .black })
          let buf := updN buf ((getN buf w).left) (fun n => { n with color := .black })
          let buf := rightRotate buf ((getN buf x).parent)
          fixDeleteLoop buf fuel buf.root
    else (buf, x)

/-- `rbDelete(tree, z)`: CLRS delete with a successor replacement, repairing
the augmented metadata on the affected ancestors, then the RB fixup. -/
def rbDelete (buf : PTBuffer) (z : NodeId) : PTBuffer :=
  let (x, y) :=
    if (getN buf z).left = 0 then ((getN buf z).right, z)
    else if (getN buf z).right = 0 then ((getN buf z).left, z)
    else
      let y := leftest buf (fuelOf buf) ((getN buf z).right)
      ((getN buf y).right, y)
  if y = buf.root then
    let buf := { buf with root := x }
    let buf := updN buf x (fun n => { n with color := .black })
    let buf := detachNode buf z
    let buf := resetSentinel buf
    updN buf buf.root (fun n => { n with parent := 0 })
  else
    let yWasRed := (getN buf y).color = .red
    let buf :=
      if y = (getN buf ((getN buf y).parent)).left then
        updN buf ((getN buf y).parent) (fun n => { n with left := x })
      else
        updN buf ((getN buf y).parent) (fun n => { n with right := x })
    let buf :=
      if y = z then
        let buf := updN buf x (fun n => { n with parent := (getN buf y).parent })
        recomputeMetadata buf x
      else
        let buf :=
          if (getN buf y).parent = z then
            updN buf x (fun n => { n with parent := y })
          else
            updN buf x (fun n => { n with parent := (getN buf y).parent })
        -- as we make changes to x's hierarchy, update size_left of subtree first
        let buf := recomputeMetadata buf x
        let buf := updN buf y (fun n => { n with left := (getN buf z).left })
        let buf := updN buf y (fun n => { n with right := (getN buf z).right })
        let buf := updN buf y (fun n => { n with parent := (getN buf z).parent })
        let buf := updN buf y (fun n => { n with color := (getN buf z).color })
        let buf :=
          if z = buf.root then { buf with root := y }
          else if z = (getN buf ((getN buf z).parent)).left then
            updN buf ((getN buf z).parent) (fun n => { n with left := y })
          else
            updN buf ((getN buf z).parent) (fun n => { n with right := y })
        let buf :=
          if (getN buf y).left ≠ 0 then
            updN buf ((getN buf y).left) (fun n => { n with parent := y })
          else buf
        let buf :=
          if (getN buf y).right ≠ 0 then
            updN buf ((getN buf y).right) (fun n => { n with parent := y })
          else buf
        -- we replace z with y, so in this sub tree, the length change is z.item.length
        let buf := updN buf y (fun n =>
          { n with size_left := (getN buf z).size_left, lf_left := (getN buf z).lf_left })
        recomputeMetadata buf y
    let buf := detachNode buf z
    let buf :=
      if (getN buf ((getN buf x).parent)).left = x then
        let newSizeLeft := calculateSize buf (fuelOf buf) x
        let newLFLeft := calculateLF buf (fuelOf buf) x
        if newSizeLeft ≠ (getN buf ((getN buf x).parent)).size_left ∨
            newLFLeft ≠ (getN buf ((getN buf x).parent)).lf_left then
          let delta := newSizeLeft - (getN buf ((getN buf x).parent)).size_left
          let lf_delta := newLFLeft - (getN buf ((getN buf x).parent)).lf_left
          let buf := updN buf ((getN buf x).parent) (fun n =>
            { n with size_left := newSizeLeft, lf_left := newLFLeft })
          updateMetadata buf (fuelOf buf) ((getN buf x).parent) delta lf_delta
        else buf
      else buf
    let buf := recomputeMetadata buf ((getN buf x).parent)
    if yWasRed then resetSentinel buf
    else
      let (buf, x) := fixDeleteLoop buf (fuelOf buf) x
      let buf := updN buf x (fun n => { n with color := .black })
      resetSentinel buf

/-! ## Cursors and navigation -/

/-- `BufferCursor`: a located piece and the remainder inside it.  `node = 0`
stands for the TS `null` result. -/
structure BufferCursor where
  node : NodeId
  remainder : Int
  deriving Repr, DecidableEq, Inhabited

/-- `nodeAt(offset)`: descend comparing `size_left` and
`size_left + piece.length`. -/
def nodeAtLoop (buf : PTBuffer) : Nat → NodeId → Int → BufferCursor
  | 0, _, _ => { node := 0, remainder := 0 }
  | fuel + 1, x, offset =>
    if x ≠ 0 then
      if (getN buf x).size_left > offset then
        nodeAtLoop buf fuel ((getN buf x).left) offset
      else if (getN buf x).size_left + pieceLen buf x ≥ offset then
        { node := x, remainder := offset - (getN buf x).size_left }
      else
        nodeAtLoop buf fuel ((getN buf x).right)
          (offset - ((getN buf x).size_left + pieceLen buf x))
    else { node := 0, remainder := 0 }

def nodeAt (buf : PTBuffer) (offset : Int) : BufferCursor :=
  nodeAtLoop buf (fuelOf buf) buf.root offset

/-- `offsetOfNode(node)`: `size_left` plus the contribution of every ancestor
passed from its right side. -/
def offsetOfNodeLoop (buf : PTBuffer) : Nat → NodeId → Int → Int
  | 0, _, pos => pos
  | fuel + 1, node, pos =>
    if node ≠ buf.root then
      let p := (getN buf node).parent
      let pos :=
        if (getN buf p).right = node then pos + (getN buf p).size_left + pieceLen buf p
        else pos
      offsetOfNodeLoop buf fuel p pos
    else pos

def offsetOfNode (buf : PTBuffer) (node : NodeId) : Int :=
  if node = 0 then 0
  else offsetOfNodeLoop buf (fuelOf buf) node ((getN buf node).size_left)

/-! ## Construction -/

/-- `udpateLFCount(chunk)` (sic): line-feed count and per-line lengths, each
length including its terminating newline except the trailing fragment. -/
def lfCountAux : List Char → Int → Int × List Int
  | [], run => (0, [run])
  | c :: cs, run =>
    if c = '\n' then
      let r := lfCountAux cs 0
      (r.1 + 1, (run + 1) :: r.2)
    else lfCountAux cs (run + 1)

def udpateLFCount (chunk : List Char) : Int × List Int :=
  lfCountAux chunk 0

/-- The `ITextSource` boundary object. -/
structure TextSource where
  text : List Char
  BOM : List Char
  EOL : List Char
  isBasicASCII : Bool
  containsRTL : Bool
  deriving Repr, DecidableEq, Inhabited

/-- The `TextBuffer` constructor: wrap the original text in a single piece. -/
def mkTextBuffer (src : TextSource) : PTBuffer :=
  let buf : PTBuffer :=
    { nodes := #[sentinelNode], root := 0, originalBuffer := src.text,
      changeBuffer := [], BOM := src.BOM, EOL := src.EOL,
      mightContainRTL := src.containsRTL,
      mightContainNonBasicASCII := !src.isBasicASCII }
  if buf.originalBuffer.length > 0 then
    let r := udpateLFCount buf.originalBuffer
    let piece : Piece :=
      { isOriginalBuffer := true, offset := 0, length := buf.originalBuffer.length,
        lineFeedCnt := r.1, lineStarts := r.2 }
    rbInsertLeft buf 0 piece
  else buf

/-- Convenience: a buffer from a plain string with LF line endings. -/
def mkBufferOf (s : List Char) : PTBuffer :=
  mkTextBuffer { text := s, BOM := [], EOL := ['\n'], isBasicASCII := true,
                 containsRTL := false }

/-! ## insert -/

/-- `TextBuffer.insert(value, offset)`. -/
def insert (buf : PTBuffer) (value : List Char) (offset : Int) : PTBuffer :=
  if buf.root ≠ 0 then
    let c := nodeAt buf offset
    let node := c.node
    let remainder := c.remainder
    let insertPos := psIndexOf (getN buf node).piece.lineStarts remainder
    let nodeOffsetInDocument := offsetOfNode buf node
    let startOffset : Int := buf.changeBuffer.length
    let buf := { buf with changeBuffer := buf.changeBuffer ++ value }
    if (getN buf node).piece.isOriginalBuffer = false ∧
        (getN buf node).piece.offset + (getN buf node).piece.length =
          (buf.changeBuffer.length : Int) - value.length ∧
        nodeOffsetInDocument + (getN buf node).piece.length = offset then
      -- append content to this node: coalesce with the tail of the change buffer
      let buf := updN buf node (fun n =>
        { n with piece := { n.piece with length := n.piece.length + value.length } })
      let r := udpateLFCount value
      let lineFeedCount := r.1
      let lineLengths := r.2
      let buf := updN buf node (fun n =>
        { n with piece := { n.piece with lineFeedCnt := n.piece.lineFeedCnt + lineFeedCount } })
      let buf := updN buf node (fun n =>
        let ls := n.piece.lineStarts
        let ls2 := psChangeValue ls ((ls.length : Int) - 1)
          (psGet ls ((ls.length : Int) - 1) + lineLengths.headD 0)
        let ls3 := psInsertValues ls2 (ls2.length : Int) (lineLengths.drop 1)
        { n with piece := { n.piece with lineStarts := ls3 } })
      updateMetadata buf (fuelOf buf) node (value.length) lineFeedCount
    else
      let r := udpateLFCount value
      let newPiece : Piece :=
        { isOriginalBuffer := false, offset := startOffset, length := value.length,
          lineFeedCnt := r.1, lineStarts := r.2 }
      if nodeOffsetInDocument = offset then
        -- inserting at the beginning of node: insert to its left
        rbInsertLeft buf node newPiece
      else if nodeOffsetInDocument + (getN buf node).piece.length > offset then
        -- split node
        let oldPiece := (getN buf node).piece
        let nr0 : Piece :=
          { isOriginalBuffer := oldPiece.isOriginalBuffer,
            offset := oldPiece.offset + offset - nodeOffsetInDocument,
            length := nodeOffsetInDocument + oldPiece.length - offset,
            lineFeedCnt := oldPiece.lineFeedCnt - insertPos.1,
            lineStarts := oldPiece.lineStarts }
        let ls := psChangeValue nr0.lineStarts (insertPos.1 : Int)
          (psGet nr0.lineStarts (insertPos.1 : Int) - insertPos.2)
        let ls := if insertPos.1 > 0 then psRemoveValues ls 0 (insertPos.1 : Int) else ls
        let newRightPiece : Piece := { nr0 with lineStarts := ls }
        -- update node metadata
        let buf := updN buf node (fun n =>
          { n with piece := { n.piece with length := n.piece.length - newRightPiece.length } })
        let lf_delta := (insertPos.1 : Int) - (getN buf node).piece.lineFeedCnt
        let buf := updN buf node (fun n =>
          { n with piece := { n.piece with lineFeedCnt := (insertPos.1 : Int) } })
        let buf := updN buf node (fun n =>
          let lsn := psRemoveValues n.piece.lineStarts ((insertPos.1 : Int) + 1)
            ((n.piece.lineStarts.length : Int) - insertPos.1 - 1)
          let lsn := psChangeValue lsn (insertPos.1 : Int) insertPos.2
          { n with piece := { n.piece with lineStarts := lsn } })
        let buf := updateMetadata buf (fuelOf buf) node (-newRightPiece.length) lf_delta
        let buf := rbInsertRight buf node newRightPiece
        rbInsertRight buf node newPiece
      else
        rbInsertRight buf node newPiece
  else
    -- insert new node
    let startOffset : Int := buf.changeBuffer.length
    let buf := { buf with changeBuffer := buf.changeBuffer ++ value }
    let r := udpateLFCount value
    let piece : Piece :=
      { isOriginalBuffer := false, offset := startOffset, length := value.length,
        lineFeedCnt := r.1, lineStarts := r.2 }
    rbInsertLeft buf 0 piece

/-! ## delete -/

/-- Collect the nodes strictly between `secondNode` and `endNode` in inorder
(the interior nodes of a cross-node deletion). -/
def collectInterior (buf : PTBuffer) : Nat → NodeId → NodeId → List NodeId
  | 0, _, _ => []
  | fuel + 1, node, endNode =>
    if node ≠ 0 ∧ node ≠ endNode then
      node :: collectInterior buf fuel (nextNode buf node) endNode
    else []

/-- `TextBuffer.delete(offset, cnt)`. -/
def deleteText (buf : PTBuffer) (offset cnt : Int) : PTBuffer :=
  if buf.root ≠ 0 then
    let startPosition := nodeAt buf offset
    let endPosition := nodeAt buf (offset + cnt)
    let startNode := startPosition.node
    let endNode := endPosition.node
    let length := pieceLen buf startNode
    let startNodeOffsetInDocument := offsetOfNode buf startNode
    let splitPos := psIndexOf (getN buf startNode).piece.lineStarts
      (offset - startNodeOffsetInDocument)
    if startNode = endNode then
      -- deletion falls into one node
      let endSplitPos := psIndexOf (getN buf startNode).piece.lineStarts
        (offset - startNodeOffsetInDocument + cnt)
      if startNodeOffsetInDocument = offset then
        if cnt = length then
          rbDelete buf startNode
        else
          -- delete head
          let buf := updN buf startNode (fun n =>
            { n with piece := { n.piece with length := n.piece.length - cnt,
                                              offset := n.piece.offset + cnt,
                                              lineFeedCnt := n.piece.lineFeedCnt - endSplitPos.1 } })
          let buf := updN buf startNode (fun n =>
            let ls := psChangeValue n.piece.lineStarts (endSplitPos.1 : Int)
              (psGet n.piece.lineStarts (endSplitPos.1 : Int) - endSplitPos.2)
            let ls := if endSplitPos.1 > 0 then psRemoveValues ls 0 (endSplitPos.1 : Int) else ls
            { n with piece := { n.piece with lineStarts := ls } })
          updateMetadata buf (fuelOf buf) startNode (-cnt) (-(endSplitPos.1 : Int))
      else if startNodeOffsetInDocument + length = offset + cnt then
        -- delete tail
        let buf := updN buf startNode (fun n =>
          { n with piece := { n.piece with length := n.piece.length - cnt } })
        let lf_delta := (splitPos.1 : Int) - (getN buf startNode).piece.lineFeedCnt
        let buf := updN buf startNode (fun n =>
          { n with piece := { n.piece with lineFeedCnt := (splitPos.1 : Int) } })
        let buf := updN buf startNode (fun n =>
          let ls := psRemoveValues n.piece.lineStarts ((splitPos.1 : Int) + 1)
            ((n.piece.lineStarts.length : Int) - splitPos.1 - 1)
          let ls := psChangeValue ls (splitPos.1 : Int) splitPos.2
          { n with piece := { n.piece with lineStarts := ls } })
        updateMetadata buf (fuelOf buf) startNode (-cnt) lf_delta
      else
        -- delete content in the middle: this node will be splitted to nodes
        let oldLineLengthsVal := (getN buf startNode).piece.lineStarts
        let buf := updN buf startNode (fun n =>
          { n with piece := { n.piece with length := offset - startNodeOffsetInDocument } })
        let lf_delta := (splitPos.1 : Int) - (getN buf startNode).piece.lineFeedCnt
        let buf := updN buf startNode (fun n =>
          { n with piece := { n.piece with lineFeedCnt := (splitPos.1 : Int) } })
        let buf := updN buf startNode (fun n =>
          let ls := oldLineLengthsVal.take (splitPos.1 + 1)
          let ls := psChangeValue ls (splitPos.1 : Int) splitPos.2
          { n with piece := { n.piece with lineStarts := ls } })
        let buf := updateMetadata buf (fuelOf buf) startNode
          (-(startNodeOffsetInDocument + length - offset)) lf_delta
        let newPieceLength := startNodeOffsetInDocument + length - offset - cnt
        if newPieceLength ≤ 0 then buf
        else
          let np0 : Piece :=
            { isOriginalBuffer := (getN buf startNode).piece.isOriginalBuffer,
              offset := offset + cnt - startNodeOffsetInDocument + (getN buf startNode).piece.offset,
              length := newPieceLength,
              lineFeedCnt := (oldLineLengthsVal.length : Int) - endSplitPos.1 - 1,
              lineStarts := oldLineLengthsVal.drop endSplitPos.1 }
          let nls := psChangeValue np0.lineStarts 0 (psGet np0.lineStarts 0 - endSplitPos.2)
          let newPiece : Piece := { np0 with lineStarts := nls }
          rbInsertRight buf startNode newPiece
    else
      -- unluckily, we need to delete/modify more than one node
      let endNodeOffsetInDocument := offsetOfNode buf endNode
      -- update firstTouchedNode
      let buf := updN buf startNode (fun n =>
        { n with piece := { n.piece with length := offset - startNodeOffsetInDocument } })
      let lf_delta := (splitPos.1 : Int) - (getN buf startNode).piece.lineFeedCnt
      let buf := updN buf startNode (fun n =>
        { n with piece := { n.piece with lineFeedCnt := (splitPos.1 : Int) } })
      let buf := updN buf startNode (fun n =>
        let ls := psRemoveValues n.piece.lineStarts ((splitPos.1 : Int) + 1)
          ((n.piece.lineStarts.length : Int) - splitPos.1 - 1)
        let ls := psChangeValue ls (splitPos.1 : Int) splitPos.2
        { n with piece := { n.piece with lineStarts := ls } })
      let buf := updateMetadata buf (fuelOf buf) startNode
        (-(startNodeOffsetInDocument + length - offset)) lf_delta
      -- update lastTouchedNode
      let buf := updN buf endNode (fun n =>
        { n with piece := { n.piece with
            length := n.piece.length - (offset + cnt - endNodeOffsetInDocument),
            offset := n.piece.offset + (offset + cnt - endNodeOffsetInDocument) } })
      let endSplitPos := psIndexOf (getN buf endNode).piece.lineStarts
        (offset - endNodeOffsetInDocument + cnt)
      let buf := updN buf endNode (fun n =>
        { n with piece := { n.piece with lineFeedCnt := n.piece.lineFeedCnt - endSplitPos.1 } })
      let buf := updN buf endNode (fun n =>
        let ls := psChangeValue n.piece.lineStarts (endSplitPos.1 : Int)
          (psGet n.piece.lineStarts (endSplitPos.1 : Int) - endSplitPos.2)
        let ls := psRemoveValues ls 0 (endSplitPos.1 : Int)
        { n with piece := { n.piece with lineStarts := ls } })
      let buf := updateMetadata buf (fuelOf buf) endNode
        (-(offset + cnt - endNodeOffsetInDocument)) (-(endSplitPos.1 : Int))
      let nodesToDel : List NodeId :=
        if (getN buf endNode).piece.length = 0 then [endNode] else []
      let secondNode := nextNode buf startNode
      let nodesToDel :=
        nodesToDel ++
          (if secondNode ≠ endNode then collectInterior buf (fuelOf buf) secondNode endNode
           else [])
      nodesToDel.foldl (fun b n => rbDelete b n) buf
  else buf

/-! ## Reads -/

/-- The buffer a piece points into. -/
def bufferOf (buf : PTBuffer) (x : NodeId) : List Char :=
  if (getN buf x).piece.isOriginalBuffer then buf.originalBuffer else buf.changeBuffer

/-- `getContentOfSubTree(node)`: inorder concatenation of the referenced
byte ranges. -/
def getContentOfSubTree (buf : PTBuffer) : Nat → NodeId → List Char
  | 0, _ => []
  | fuel + 1, node =>
    if node = 0 then []
    else
      let currentContent :=
        jsSubstr (bufferOf buf node) ((getN buf node).piece.offset) ((getN buf node).piece.length)
      getContentOfSubTree buf fuel ((getN buf node).left) ++ currentContent ++
        getContentOfSubTree buf fuel ((getN buf node).right)

/-- `getLinesContent()`. -/
def getLinesContent (buf : PTBuffer) : List Char :=
  getContentOfSubTree buf (fuelOf buf) buf.root

/-- `getLineCount()`: `1 + Σ lineFeedCnt` accumulated along the right spine. -/
def getLineCountLoop (buf : PTBuffer) : Nat → NodeId → Int → Int
  | 0, _, ret => ret
  | fuel + 1, x, ret =>
    if x ≠ 0 then
      getLineCountLoop buf fuel ((getN buf x).right)
        (ret + (getN buf x).lf_left + pieceLF buf x)
    else ret

def getLineCount (buf : PTBuffer) : Int :=
  getLineCountLoop buf (fuelOf buf) buf.root 1

/-- Descent of `getLineContent`: returns `.inl content` when the line is
fully inside one piece, `.inr (ret, x)` when the tail-chasing loop must
continue from `x`, and `.inl ret`-style empty at a sentinel fall-through. -/
def getLineContentDescend (buf : PTBuffer) : Nat → NodeId → Int → List Char ⊕ (List Char × NodeId)
  | 0, _, _ => .inl []
  | fuel + 1, x, lineNumber =>
    if x ≠ 0 then
      if (getN buf x).left ≠ 0 ∧ (getN buf x).lf_left ≥ lineNumber - 1 then
        getLineContentDescend buf fuel ((getN buf x).left) lineNumber
      else if (getN buf x).lf_left + pieceLF buf x > lineNumber - 1 then
        let prevAccumualtedValue := psAccumulatedValue (getN buf x).piece.lineStarts
          (lineNumber - (getN buf x).lf_left - 2)
        let accumualtedValue := psAccumulatedValue (getN buf x).piece.lineStarts
          (lineNumber - (getN buf x).lf_left - 1)
        .inl (jsSubstring (bufferOf buf x)
          ((getN buf x).piece.offset + prevAccumualtedValue)
          ((getN buf x).piece.offset + accumualtedValue))
      else if (getN buf x).lf_left + pieceLF buf x = lineNumber - 1 then
        let prevAccumualtedValue := psAccumulatedValue (getN buf x).piece.lineStarts
          (lineNumber - (getN buf x).lf_left - 2)
        .inr (jsSubstring (bufferOf buf x)
          ((getN buf x).piece.offset + prevAccumualtedValue)
          ((getN buf x).piece.offset + (getN buf x).piece.length), x)
      else
        getLineContentDescend buf fuel ((getN buf x).right)
          (lineNumber - ((getN buf x).lf_left + pieceLF buf x))
    else .inr ([], 0)

/-- Tail loop of `getLineContent`: append successor pieces until one whose
first line ends with a line feed. -/
def getLineContentChase (buf : PTBuffer) : Nat → NodeId → List Char → List Char
  | 0, _, ret => ret
  | fuel + 1, x, ret =>
    if x ≠ 0 then
      if pieceLF buf x > 0 then
        let accumualtedValue := psAccumulatedValue (getN buf x).piece.lineStarts 0
        ret ++ jsSubstring (bufferOf buf x) ((getN buf x).piece.offset)
          ((getN buf x).piece.offset + accumualtedValue)
      else
        getLineContentChase buf fuel (nextNode buf x)
          (ret ++ jsSubstr (bufferOf buf x) ((getN buf x).piece.offset)
            ((getN buf x).piece.length))
    else ret

/-- `getLineContent(lineNumber)`. -/
def getLineContent (buf : PTBuffer) (lineNumber : Int) : List Char :=
  match getLineContentDescend buf (fuelOf buf) buf.root lineNumber with
  | .inl s => s
  | .inr (ret, x) => getLineContentChase buf (fuelOf buf) (nextNode buf x) ret

def getLineLength (buf : PTBuffer) (lineNumber : Int) : Int :=
  (getLineContent buf lineNumber).length

/-! ## Positions and offsets -/

/-- A `(lineNumber, column)` position, both 1-based. -/
structure Position where
  lineNumber : Int
  column : Int
  deriving Repr, DecidableEq, Inhabited

/-- `getOffsetAt2(lineNumber, column)`: descend accumulating `size_left` on
right turns, then add the line start and the column inside the landed piece. -/
def getOffsetAt2Loop (buf : PTBuffer) : Nat → NodeId → Int → Int → Int → Int
  | 0, _, _, _, leftLen => leftLen
  | fuel + 1, x, lineNumber, column, leftLen =>
    if x ≠ 0 then
      if (getN buf x).left ≠ 0 ∧ (getN buf x).lf_left + 1 ≥ lineNumber then
        getOffsetAt2Loop buf fuel ((getN buf x).left) lineNumber column leftLen
      else if (getN buf x).lf_left + pieceLF buf x + 1 ≥ lineNumber then
        let leftLen := leftLen + (getN buf x).size_left
        let accumualtedValInCurrentIndex := psAccumulatedValue (getN buf x).piece.lineStarts
          (lineNumber - (getN buf x).lf_left - 2)
        leftLen + accumualtedValInCurrentIndex + column - 1
      else
        getOffsetAt2Loop buf fuel ((getN buf x).right)
          (lineNumber - ((getN buf x).lf_left + pieceLF buf x))
          column
          (leftLen + (getN buf x).size_left + pieceLen buf x)
    else leftLen

def getOffsetAt2 (buf : PTBuffer) (lineNumber column : Int) : Int :=
  getOffsetAt2Loop buf (fuelOf buf) buf.root lineNumber column 0

def getOffsetAt (buf : PTBuffer) (position : Position) : Int :=
  getOffsetAt2 buf position.lineNumber position.column

/-- `getPositionAt(offset)`: descend by `size_left`; at the landed piece,
when the offset falls in the piece's first line, add the last line length of
a single inorder predecessor. -/
def getPositionAtLoop (buf : PTBuffer) : Nat → NodeId → Int → Int → Option Position
  | 0, _, _, _ => none
  | fuel + 1, x, offset, lfCnt =>
    if x ≠ 0 then
      if (getN buf x).size_left ≠ 0 ∧ (getN buf x).size_left ≥ offset then
        getPositionAtLoop buf fuel ((getN buf x).left) offset lfCnt
      else if (getN buf x).size_left + pieceLen buf x ≥ offset then
        let out := psIndexOf (getN buf x).piece.lineStarts (offset - (getN buf x).size_left)
        let column : Int :=
          if out.1 = 0 then
            let prev := prevNode buf x
            if prev ≠ 0 then
              (getN buf prev).piece.lineStarts.getLastD 0
            else 0
          else 0
        let lfCnt := lfCnt + (getN buf x).lf_left + out.1
        some { lineNumber := lfCnt + 1, column := column + out.2 + 1 }
      else
        getPositionAtLoop buf fuel ((getN buf x).right)
          (offset - ((getN buf x).size_left + pieceLen buf x))
          (lfCnt + (getN buf x).lf_left + pieceLF buf x)
    else none

def getPositionAt (buf : PTBuffer) (offset : Int) : Option Position :=
  getPositionAtLoop buf (fuelOf buf) buf.root offset 0

/-! ## Ranges

Modelled from the spec: `Range` and `Position` (vs/editor/common/core) are
part of the repository but not under src/.  Positions and ranges are 1-based;
`isBefore` is strict position order; a range `isEmpty` when its endpoints
coincide; `compareRangesUsingEnds` orders by end position, breaking ties by
start position (spec 4.E: sort ascending by end-range). -/

structure Range where
  startLineNumber : Int
  startColumn : Int
  endLineNumber : Int
  endColumn : Int
  deriving Repr, DecidableEq, Inhabited

def Range.getStartPosition (r : Range) : Position :=
  { lineNumber := r.startLineNumber, column := r.startColumn }

def Range.getEndPosition (r : Range) : Position :=
  { lineNumber := r.endLineNumber, column := r.endColumn }

def Range.isEmpty (r : Range) : Bool :=
  r.startLineNumber = r.endLineNumber ∧ r.startColumn = r.endColumn

/-- Modelled from the spec: strict `Position.isBefore`. -/
def Position.isBefore (p other : Position) : Bool :=
  if p.lineNumber < other.lineNumber then true
  else if other.lineNumber < p.lineNumber then false
  else p.column < other.column

/-- Modelled from the spec: `Range.compareRangesUsingEnds`, ascending by end
position with ties broken by start position. -/
def compareRangesUsingEnds (a b : Range) : Int :=
  if a.endLineNumber = b.endLineNumber then
    if a.endColumn = b.endColumn then
      if a.startLineNumber = b.startLineNumber then a.startColumn - b.startColumn
      else a.startLineNumber - b.startLineNumber
    else a.endColumn - b.endColumn
  else a.endLineNumber - b.endLineNumber

/-! ## nodeAt2 and range reads -/

/-- Descent phase of `nodeAt2`: `.inl` is a found cursor, `.inr (x, column)`
is the `break` into the successor chase with the leftover column. -/
def nodeAt2Descend (buf : PTBuffer) : Nat → NodeId → Int → Int → BufferCursor ⊕ (NodeId × Int)
  | 0, _, _, _ => .inr (0, 0)
  | fuel + 1, x, lineNumber, column =>
    if x ≠ 0 then
      if (getN buf x).left ≠ 0 ∧ (getN buf x).lf_left ≥ lineNumber - 1 then
        nodeAt2Descend buf fuel ((getN buf x).left) lineNumber column
      else if (getN buf x).lf_left + pieceLF buf x > lineNumber - 1 then
        let prevAccumualtedValue := psAccumulatedValue (getN buf x).piece.lineStarts
          (lineNumber - (getN buf x).lf_left - 2)
        let accumualtedValue := psAccumulatedValue (getN buf x).piece.lineStarts
          (lineNumber - (getN buf x).lf_left - 1)
        .inl { node := x, remainder := min (prevAccumualtedValue + column - 1) accumualtedValue }
      else if (getN buf x).lf_left + pieceLF buf x = lineNumber - 1 then
        let prevAccumualtedValue := psAccumulatedValue (getN buf x).piece.lineStarts
          (lineNumber - (getN buf x).lf_left - 2)
        if prevAccumualtedValue + column - 1 ≤ (getN buf x).piece.length then
          .inl { node := x, remainder := prevAccumualtedValue + column - 1 }
        else
          .inr (x, column - ((getN buf x).piece.length - prevAccumualtedValue))
      else
        nodeAt2Descend buf fuel ((getN buf x).right)
          (lineNumber - ((getN buf x).lf_left + pieceLF buf x)) column
    else .inr (0, column)

/-- Chase phase of `nodeAt2`: walk inorder successors consuming the column. -/
def nodeAt2Chase (buf : PTBuffer) : Nat → NodeId → Int → BufferCursor
  | 0, _, _ => { node := 0, remainder := 0 }
  | fuel + 1, x, column =>
    if x ≠ 0 then
      if pieceLF buf x > 0 then
        let accumualtedValue := psAccumulatedValue (getN buf x).piece.lineStarts 0
        { node := x, remainder := min (column - 1) accumualtedValue }
      else if (getN buf x).piece.length ≥ column - 1 then
        { node := x, remainder := column - 1 }
      else
        nodeAt2Chase buf fuel (nextNode buf x) (column - (getN buf x).piece.length)
    else { node := 0, remainder := 0 }

/-- `nodeAt2(position)`. -/
def nodeAt2 (buf : PTBuffer) (position : Position) : BufferCursor :=
  match nodeAt2Descend buf (fuelOf buf) buf.root position.lineNumber position.column with
  | .inl c => c
  | .inr (x, column) => nodeAt2Chase buf (fuelOf buf) (nextNode buf x) column

/-- Middle loop of `getValueInRange`: concatenate the full interior pieces and
the partial slice of the end node. -/
def getValueInRangeChase (buf : PTBuffer) : Nat → NodeId → NodeId → Int → List Char → List Char
  | 0, _, _, _, ret => ret
  | fuel + 1, x, endNodeId, endRemainder, ret =>
    if x ≠ 0 then
      let buffer := bufferOf buf x
      if x = endNodeId then
        ret ++ jsSubstring buffer ((getN buf x).piece.offset)
          ((getN buf x).piece.offset + endRemainder)
      else
        getValueInRangeChase buf fuel (nextNode buf x) endNodeId endRemainder
          (ret ++ jsSubstr buffer ((getN buf x).piece.offset) ((getN buf x).piece.length))
    else ret

/-- `getValueInRange(range)`: empty ranges short-circuit to `""` before any
tree access. -/
def getValueInRange (buf : PTBuffer) (range : Range) : List Char :=
  if range.startLineNumber = range.endLineNumber ∧ range.startColumn = range.endColumn then
    []
  else
    let startPosition := nodeAt2 buf range.getStartPosition
    let endPosition := nodeAt2 buf range.getEndPosition
    if startPosition.node = endPosition.node then
      let node := startPosition.node
      jsSubstring (bufferOf buf node)
        ((getN buf node).piece.offset + startPosition.remainder)
        ((getN buf node).piece.offset + endPosition.remainder)
    else
      let x := startPosition.node
      let ret := jsSubstring (bufferOf buf x)
        ((getN buf x).piece.offset + startPosition.remainder)
        ((getN buf x).piece.offset + (getN buf x).piece.length)
      getValueInRangeChase buf (fuelOf buf) (nextNode buf x) endPosition.node
        endPosition.remainder ret

/-- `getValueLengthInRange(range)`. -/
def getValueLengthInRange (buf : PTBuffer) (range : Range) : Int :=
  if range.isEmpty then 0
  else if range.startLineNumber = range.endLineNumber then
    range.endColumn - range.startColumn
  else
    let startOffset := getOffsetAt buf range.getStartPosition
    let endOffset := getOffsetAt buf range.getEndPosition
    endOffset - startOffset

/-! ## String scans

Modelled from the spec: helpers from vs/base/common/strings.ts, which is part
of the repository but not under src/. -/

/-- Modelled from the spec: `strings.firstNonWhitespaceIndex`, the index of
the first character that is neither a space nor a tab, `-1` when none. -/
def firstNonWhitespaceIndex (s : List Char) : Int :=
  match s.findIdx? (fun c => c ≠ ' ' ∧ c ≠ '\t') with
  | some i => (i : Int)
  | none => -1

/-- Modelled from the spec: `strings.containsRTL`, a character scan for
right-to-left script ranges. -/
def containsRTL (s : List Char) : Bool :=
  s.any (fun c => 0x590 ≤ c.toNat ∧ c.toNat ≤ 0x8FF)

/-- Modelled from the spec: `strings.isBasicASCII`, every character is tab,
LF, CR or printable ASCII. -/
def isBasicASCII (s : List Char) : Bool :=
  s.all (fun c => c = '\t' ∨ c = '\n' ∨ c = '\r' ∨ (0x20 ≤ c.toNat ∧ c.toNat ≤ 0x7E))

/-! ## Edit operations -/

/-- `IIdentifiedSingleEditOperation`.  JS `text: string | null` is collapsed
to a plain list: the source only tests its truthiness, for which `null` and
`""` behave alike. -/
structure RawOp where
  identifier : Option Int
  range : Range
  text : List Char
  forceMoveMarkers : Bool
  isAutoWhitespaceEdit : Bool
  isTracked : Bool
  deriving Repr, DecidableEq, Inhabited

/-- `IValidatedEditOperation`. -/
structure ValidatedOp where
  sortIndex : Nat
  identifier : Option Int
  range : Range
  rangeOffset : Int
  rangeLength : Int
  lines : Option (List (List Char))
  forceMoveMarkers : Bool
  isAutoWhitespaceEdit : Bool
  deriving Repr, DecidableEq, Inhabited

/-- Split at `\r\n`, `\r` or `\n` (the regex `/\r\n|\r|\n/` of the source). -/
def splitLines : List Char → List (List Char)
  | [] => [[]]
  | '\r' :: '\n' :: cs => [] :: splitLines cs
  | '\r' :: cs => [] :: splitLines cs
  | '\n' :: cs => [] :: splitLines cs
  | c :: cs =>
    match splitLines cs with
    | l :: ls => (c :: l) :: ls
    | [] => [[c]]

/-- `_sortOpsAscending`: by `compareRangesUsingEnds`, ties by `sortIndex`. -/
def sortOpsAscendingCmp (a b : ValidatedOp) : Int :=
  let r := compareRangesUsingEnds a.range b.range
  if r = 0 then (a.sortIndex : Int) - (b.sortIndex : Int) else r

/-- `_sortOpsDescending`: by `compareRangesUsingEnds` reversed, ties by
`sortIndex` reversed. -/
def sortOpsDescendingCmp (a b : ValidatedOp) : Int :=
  let r := compareRangesUsingEnds a.range b.range
  if r = 0 then (b.sortIndex : Int) - (a.sortIndex : Int) else -r

/-- Stable insertion into a list sorted by a comparator. -/
def insertByCmp (cmp : ValidatedOp → ValidatedOp → Int) (x : ValidatedOp) :
    List ValidatedOp → List ValidatedOp
  | [] => [x]
  | y :: ys => if cmp x y < 0 then x :: y :: ys else y :: insertByCmp cmp x ys

/-- Stable sort by a comparator (the comparators above are total orders on
batches with distinct sort indices, so any correct sort agrees). -/
def sortByCmp (cmp : ValidatedOp → ValidatedOp → Int) (l : List ValidatedOp) :
    List ValidatedOp :=
  l.foldr (insertByCmp cmp) []

/-- Inclusive integer range `[a..b]` for the `for` loops on line numbers. -/
def intRangeIncl (a b : Int) : List Int :=
  (List.range ((b - a + 1).toNat)).map (fun i => a + (i : Int))

/-- Start of one inverse range: the operation's start, shifted by the
previous operation's delta when there is one (the head of the
`_getInverseEditRanges` loop body). -/
def invStartOf (prev : Option (ValidatedOp × Int × Int)) (op : ValidatedOp) : Int × Int :=
  match prev with
  | some (prevOp, prevOpEndLineNumber, prevOpEndColumn) =>
    if prevOp.range.endLineNumber = op.range.startLineNumber then
      (prevOpEndLineNumber,
       prevOpEndColumn + (op.range.startColumn - prevOp.range.endColumn))
    else
      (prevOpEndLineNumber + (op.range.startLineNumber - prevOp.range.endLineNumber),
       op.range.startColumn)
  | none => (op.range.startLineNumber, op.range.startColumn)

/-- Result range of one inverse range at a computed start (the tail of the
`_getInverseEditRanges` loop body): empty when nothing is inserted, otherwise
sized by the inserted lines. -/
def invRangeOf (op : ValidatedOp) (startLineNumber startColumn : Int) : Range :=
  match op.lines with
  | some lines =>
    if lines.length > 0 then
      if lines.length = 1 then
        { startLineNumber := startLineNumber, startColumn := startColumn,
          endLineNumber := startLineNumber,
          endColumn := startColumn + ((lines.headD []).length : Int) }
      else
        { startLineNumber := startLineNumber, startColumn := startColumn,
          endLineNumber := startLineNumber + (lines.length : Int) - 1,
          endColumn := ((lines.getLastD []).length : Int) + 1 }
    else
      { startLineNumber := startLineNumber, startColumn := startColumn,
        endLineNumber := startLineNumber, endColumn := startColumn }
  | none =>
    { startLineNumber := startLineNumber, startColumn := startColumn,
      endLineNumber := startLineNumber, endColumn := startColumn }

/-- `_getInverseEditRanges(operations)`: for each operation a range starting
at the start shifted by the previous operation's delta and covering the
inserted content. -/
def getInverseEditRangesLoop :
    List ValidatedOp → Option (ValidatedOp × Int × Int) → List Range
  | [], _ => []
  | op :: rest, prev =>
    let s := invStartOf prev op
    let resultRange := invRangeOf op s.1 s.2
    resultRange ::
      getInverseEditRangesLoop rest (some (op, resultRange.endLineNumber, resultRange.endColumn))

/-- `TextBuffer._getInverseEditRanges`. -/
def getInverseEditRanges (operations : List ValidatedOp) : List Range :=
  getInverseEditRangesLoop operations none

/-! ## Content-change events -/

/-- `ModelRawChange` variants used by `_doApplyEdits`. -/
inductive ModelRawChange where
  | lineChanged (lineNumber : Int) (newContent : List Char)
  | linesDeleted (fromLineNumber toLineNumber : Int)
  | linesInserted (fromLineNumber toLineNumber : Int) (joinedContent : List Char)
  deriving Repr, DecidableEq, Inhabited

/-- `IInternalModelContentChange`. -/
structure ContentChange where
  range : Range
  rangeLength : Int
  text : List Char
  lines : Option (List (List Char))
  rangeOffset : Int
  forceMoveMarkers : Bool
  deriving Repr, DecidableEq, Inhabited

/-- `ApplyEditResult`. -/
structure ApplyEditResult where
  reverseEdits : List RawOp
  rawChanges : List ModelRawChange
  changes : List ContentChange
  trimAutoWhitespaceLineNumbers : Option (List Int)
  deriving Repr, DecidableEq, Inhabited

/-- The only error the applier surfaces. -/
inductive EditError where
  | overlappingRanges
  deriving Repr, DecidableEq, Inhabited

/-! ## The applier -/

/-- Body of `_doApplyEdits` for one operation (the operations arrive sorted
descending): the tree mutation followed by the event synthesis. -/
def doApplyOneEdit (buf : PTBuffer) (op : ValidatedOp)
    (acc : List ModelRawChange × List ContentChange) :
    PTBuffer × (List ModelRawChange × List ContentChange) :=
  let startLineNumber := op.range.startLineNumber
  let startColumn := op.range.startColumn
  let endLineNumber := op.range.endLineNumber
  let endColumn := op.range.endColumn
  if startLineNumber = endLineNumber ∧ startColumn = endColumn ∧
      (match op.lines with | none => true | some ls => ls.length == 0) = true then
    -- no-op
    (buf, acc)
  else
    let deletingLinesCnt := endLineNumber - startLineNumber
    let insertingLinesCnt : Int :=
      match op.lines with
      | some ls => (ls.length : Int) - 1
      | none => 0
    let editingLinesCnt := min deletingLinesCnt insertingLinesCnt
    let text : List Char :=
      match op.lines with
      | some ls => List.intercalate buf.EOL ls
      | none => []
    let buf :=
      if text ≠ [] then
        let buf := deleteText buf op.rangeOffset op.rangeLength
        insert buf text op.rangeOffset
      else
        deleteText buf op.rangeOffset op.rangeLength
    let rawChanges := acc.1 ++
      (intRangeIncl startLineNumber (startLineNumber + editingLinesCnt)).map
        (fun j => ModelRawChange.lineChanged j (getLineContent buf j))
    let rawChanges :=
      if editingLinesCnt < deletingLinesCnt then
        rawChanges ++
          [ModelRawChange.linesDeleted (startLineNumber + editingLinesCnt + 1) endLineNumber]
      else rawChanges
    let rawChanges :=
      if editingLinesCnt < insertingLinesCnt then
        let lines := op.lines.getD []
        let newLinesContent :=
          (intRangeIncl (editingLinesCnt + 1) insertingLinesCnt).map
            (fun j => lines.getD j.toNat [])
        let newLinesContent :=
          newLinesContent.dropLast ++
            [getLineContent buf (startLineNumber + insertingLinesCnt - 1)]
        rawChanges ++
          [ModelRawChange.linesInserted (startLineNumber + editingLinesCnt + 1)
            (startLineNumber + insertingLinesCnt)
            (List.intercalate ['\n'] newLinesContent)]
      else rawChanges
    let contentChanges := acc.2 ++
      [{ range := { startLineNumber := startLineNumber, startColumn := startColumn,
                    endLineNumber := endLineNumber, endColumn := endColumn },
         rangeLength := op.rangeLength, text := text, lines := op.lines,
         rangeOffset := op.rangeOffset, forceMoveMarkers := op.forceMoveMarkers }]
    (buf, (rawChanges, contentChanges))

/-- `_doApplyEdits(operations)`: sort descending and apply each operation
bottom-up, emitting content-change events. -/
def doApplyEdits (buf : PTBuffer) (operations : List ValidatedOp) :
    PTBuffer × (List ModelRawChange × List ContentChange) :=
  let operations := sortByCmp sortOpsDescendingCmp operations
  operations.foldl (fun st op => doApplyOneEdit st.1 op st.2) (buf, ([], []))

/-- Validation pass of `_applyEdits`: build the `IValidatedEditOperation`
records and the tentative RTL / non-ASCII flags. -/
def validateOps (buf : PTBuffer) (rawOperations : List RawOp) :
    List ValidatedOp × Bool × Bool :=
  let step := fun (st : List ValidatedOp × Bool × Bool × Nat) (op : RawOp) =>
    let (acc, mightContainRTL, mightContainNonBasicASCII, i) := st
    let validatedRange := op.range
    let mightContainRTL :=
      if ¬mightContainRTL ∧ op.text ≠ [] then containsRTL op.text else mightContainRTL
    let mightContainNonBasicASCII :=
      if ¬mightContainNonBasicASCII ∧ op.text ≠ [] then ¬isBasicASCII op.text
      else mightContainNonBasicASCII
    let v : ValidatedOp :=
      { sortIndex := i, identifier := op.identifier, range := validatedRange,
        rangeOffset := getOffsetAt buf validatedRange.getStartPosition,
        rangeLength := getValueLengthInRange buf validatedRange,
        lines := if op.text ≠ [] then some (splitLines op.text) else none,
        forceMoveMarkers := op.forceMoveMarkers,
        isAutoWhitespaceEdit := op.isAutoWhitespaceEdit }
    (acc ++ [v], mightContainRTL, mightContainNonBasicASCII, i + 1)
  let r := rawOperations.foldl step ([], buf.mightContainRTL, buf.mightContainNonBasicASCII, 0)
  (r.1, r.2.1, r.2.2.1)

/-- The overlap scan on the ascending-sorted operations: some next range's
start is strictly before the previous range's end. -/
def hasOverlappingRanges : List ValidatedOp → Bool
  | a :: b :: rest =>
    (b.range.getStartPosition.isBefore a.range.getEndPosition) ||
      hasOverlappingRanges (b :: rest)
  | _ => false

/-- Trim-auto-whitespace candidates recorded against the pre-edit state. -/
def trimCandidatesOf (buf : PTBuffer) (recordTrimAutoWhitespace : Bool)
    (operations : List ValidatedOp) (reverseRanges : List Range) :
    List (Int × List Char) :=
  (operations.zip reverseRanges).foldl
    (fun acc p =>
      let op := p.1
      let reverseRange := p.2
      if recordTrimAutoWhitespace ∧ op.isAutoWhitespaceEdit ∧ op.range.isEmpty then
        acc ++
          ((intRangeIncl reverseRange.startLineNumber reverseRange.endLineNumber).filterMap
            (fun lineNumber =>
              if lineNumber = reverseRange.startLineNumber then
                let currentLineContent := getLineContent buf op.range.startLineNumber
                if firstNonWhitespaceIndex currentLineContent ≠ -1 then none
                else some (lineNumber, currentLineContent)
              else some (lineNumber, [])))
      else acc)
    []

/-- Final filtering of the trim candidates against the post-edit state. -/
def trimLineNumbersOf (buf : PTBuffer) (cands : List (Int × List Char)) : Option (List Int) :=
  if cands.length = 0 then none
  else
    -- sort candidates descending by line number (insertion sort, stable)
    let sorted := cands.foldr
      (fun x acc =>
        let rec ins (x : Int × List Char) : List (Int × List Char) → List (Int × List Char)
          | [] => [x]
          | y :: ys => if x.1 > y.1 then x :: y :: ys else y :: ins x ys
        ins x acc) []
    let step := fun (st : List Int × Option Int) (c : Int × List Char) =>
      let (acc, prevLine) := st
      if prevLine = some c.1 then (acc, prevLine)
      else
        let lineContent := getLineContent buf c.1
        if lineContent.length = 0 ∨ lineContent = c.2 ∨
            firstNonWhitespaceIndex lineContent ≠ -1 then
          (acc, some c.1)
        else
          (acc ++ [c.1], some c.1)
    some (sorted.foldl step ([], none)).1

/-- `TextBuffer._applyEdits(rawOperations, recordTrimAutoWhitespace)`.  The
TS method throws on overlapping ranges before any mutation; here the error
is returned next to the untouched buffer. -/
def applyEdits (buf : PTBuffer) (rawOperations : List RawOp)
    (recordTrimAutoWhitespace : Bool) : PTBuffer × Except EditError ApplyEditResult :=
  let v := validateOps buf rawOperations
  let operations := sortByCmp sortOpsAscendingCmp v.1
  let mightContainRTL := v.2.1
  let mightContainNonBasicASCII := v.2.2
  if hasOverlappingRanges operations then
    (buf, .error .overlappingRanges)
  else
    let reverseRanges := getInverseEditRanges operations
    let newTrimAutoWhitespaceCandidates :=
      trimCandidatesOf buf recordTrimAutoWhitespace operations reverseRanges
    let reverseOperations : List RawOp :=
      (operations.zip reverseRanges).map (fun p =>
        { identifier := p.1.identifier, range := p.2,
          text := getValueInRange buf p.1.range,
          forceMoveMarkers := p.1.forceMoveMarkers,
          isAutoWhitespaceEdit := false, isTracked := false })
    let buf := { buf with mightContainRTL := mightContainRTL,
                          mightContainNonBasicASCII := mightContainNonBasicASCII }
    let r := doApplyEdits buf operations
    let buf := r.1
    let trimAutoWhitespaceLineNumbers :=
      if recordTrimAutoWhitespace ∧ newTrimAutoWhitespaceCandidates.length > 0 then
        trimLineNumbersOf buf newTrimAutoWhitespaceCandidates
      else none
    (buf, .ok { reverseEdits := reverseOperations, rawChanges := r.2.1,
                changes := r.2.2,
                trimAutoWhitespaceLineNumbers := trimAutoWhitespaceLineNumbers })


/-! ## Claim scenarios and theorems -/

/-- Extract the raw content changes of an apply-edits result. -/
def rawChangesOf (r : Except EditError ApplyEditResult) : List ModelRawChange :=
  match r with
  | .ok res => res.rawChanges
  | .error _ => []

/-- Build a plain replacement operation. -/
def mkEditOp (r : Range) (t : List Char) : RawOp :=
  { identifier := none, range := r, text := t, forceMoveMarkers := false,
    isAutoWhitespaceEdit := false, isTracked := false }

/-- Document `abcdef` held as the three pieces `ab`, `cd`, `ef` of one
logical line: original `ef`, then `ab` inserted at 0, then `cd` at 2. -/
def c3buffer : PTBuffer :=
  insert (insert (mkBufferOf "ef".toList) "ab".toList 0) "cd".toList 2

/-- C3: the claim `getOffsetAt(getPositionAt(k)) == k` fails on the code.
On the three-piece single-line document `abcdef`, `getPositionAt 5` lands in
the piece `ef` and adds the last-line length of only one inorder predecessor
(`cd`), returning position (1,4) instead of (1,6); mapping back gives offset
3, not 5. -/
theorem C3_positionAt_offsetAt_roundtrip_fails :
    getLinesContent c3buffer = "abcdef".toList ∧
    getPositionAt c3buffer 5 = some { lineNumber := 1, column := 4 } ∧
    getOffsetAt c3buffer { lineNumber := 1, column := 4 } = 3 := by decide

/-- Document `cdefab` as pieces `cd`, `ef`, `ab`, rooted at `ef`, then
`delete(2, 3)`: a cross-node deletion beginning exactly at the start node's
first byte. -/
def c9buffer : PTBuffer :=
  deleteText (insert (insert (mkBufferOf "ab".toList) "cd".toList 0) "ef".toList 2) 2 3

/-- C9: the claim that no zero-length piece is ever retained fails on the
code.  After the cross-node `delete(2, 3)` on the three-piece document
`cdefab`, the start node (the root, with both children linked) is left in
the tree with `piece.length = 0` instead of being unlinked; the content
itself is the correct `cdb`. -/
theorem C9_zero_length_piece_retained :
    getLinesContent c9buffer = "cdb".toList ∧
    c9buffer.root ≠ 0 ∧
    (getN c9buffer c9buffer.root).piece.length = 0 ∧
    (getN c9buffer c9buffer.root).left ≠ 0 ∧
    (getN c9buffer c9buffer.root).right ≠ 0 := by decide

def c7buffer : PTBuffer := mkBufferOf "ab".toList

def c7op : RawOp := mkEditOp ⟨1, 2, 1, 2⟩ "X\nY".toList

def c7result : PTBuffer × Except EditError ApplyEditResult :=
  applyEdits c7buffer [c7op] false

/-- C7: the claim that the `LinesInserted` joined content equals the actual
post-edit content of the covered lines fails on the code.  Inserting `X\nY`
at (1,2) of `ab` yields `aX\nYb`; the emitted event covers lines 2..2 but
its content is `getLineContent(startLine + insertingLines - 1)` = line 1
(`aX\n`), not the actual line 2 (`Yb`). -/
theorem C7_linesInserted_event_content_mismatch :
    getLinesContent c7result.1 = "aX\nYb".toList ∧
    rawChangesOf c7result.2 =
      [ModelRawChange.lineChanged 1 "aX\n".toList,
       ModelRawChange.linesInserted 2 2 "aX\n".toList] ∧
    getLineContent c7result.1 2 = "Yb".toList := by decide

/-- C10: a range whose start position equals its end position makes
`getValueInRange` return the empty string for every buffer, including
positions outside the document: the guard fires before any tree access. -/
theorem C10_getValueInRange_empty_range (buf : PTBuffer) (range : Range)
    (h1 : range.startLineNumber = range.endLineNumber)
    (h2 : range.startColumn = range.endColumn) :
    getValueInRange buf range = [] := by
  simp [getValueInRange, h1, h2]

/-- Witness for C10 at a concrete input: position (99,99) lies far outside
the empty document. -/
theorem C10_getValueInRange_empty_range_witness :
    getValueInRange (mkBufferOf []) ⟨99, 99, 99, 99⟩ = [] :=
  C10_getValueInRange_empty_range (mkBufferOf []) ⟨99, 99, 99, 99⟩ rfl rfl

def c4buffer : PTBuffer := mkBufferOf "abcdefgh".toList

def c4ops : List RawOp :=
  [mkEditOp ⟨1, 1, 1, 5⟩ "x".toList, mkEditOp ⟨1, 3, 1, 7⟩ "y".toList]

/-- C4: when the ascending-sorted validated batch has a next range starting
strictly before the previous range's end, `_applyEdits` fails with the
overlapping-ranges error and returns the buffer completely unchanged
(content, tree and RTL / non-ASCII flags alike): the throw happens before
any mutation or flag commit. -/
theorem C4_applyEdits_overlap_leaves_buffer_unmodified
    (buf : PTBuffer) (rawOperations : List RawOp) (recordTrimAutoWhitespace : Bool)
    (h : hasOverlappingRanges
      (sortByCmp sortOpsAscendingCmp (validateOps buf rawOperations).1) = true) :
    applyEdits buf rawOperations recordTrimAutoWhitespace =
      (buf, Except.error EditError.overlappingRanges) := by
  simp [applyEdits, h]

/-- Witness for C4 at spec scenario 6: ranges (1,1)-(1,5) and (1,3)-(1,7)
on the document `abcdefgh`. -/
theorem C4_applyEdits_overlap_witness :
    hasOverlappingRanges (sortByCmp sortOpsAscendingCmp (validateOps c4buffer c4ops).1) = true ∧
    applyEdits c4buffer c4ops false = (c4buffer, Except.error EditError.overlappingRanges) :=
  ⟨by decide, C4_applyEdits_overlap_leaves_buffer_unmodified c4buffer c4ops false (by decide)⟩

/-! ## spacesDiff (indentation guesser, src/unnamed/part_001) -/

/-- The first loop of `spacesDiff`: how many leading character positions of
the two indentations agree (`i` runs while `i < aLength`, `i < bLength` and
the characters coincide). -/
def commonPrefixCount : List Char → List Char → Nat
  | x :: xs, y :: ys => if x = y then commonPrefixCount xs ys + 1 else 0
  | _, _ => 0

/-- `spacesDiff(a, aLength, b, bLength)`: skip the common prefix, count
spaces and non-spaces (the source's "tabs") on each remaining side, bail out
on a mixed side, then combine the absolute differences. -/
def spacesDiff (a : List Char) (aLength : Nat) (b : List Char) (bLength : Nat) : Nat :=
  let i := commonPrefixCount (a.take aLength) (b.take bLength)
  let aRest := (a.take aLength).drop i
  let bRest := (b.take bLength).drop i
  let aSpacesCnt := aRest.countP (fun c => c == ' ')
  let aTabsCount := aRest.countP (fun c => c != ' ')
  let bSpacesCnt := bRest.countP (fun c => c == ' ')
  let bTabsCount := bRest.countP (fun c => c != ' ')
  if aSpacesCnt > 0 ∧ aTabsCount > 0 then 0
  else if bSpacesCnt > 0 ∧ bTabsCount > 0 then 0
  else
    let tabsDiff := max aTabsCount bTabsCount - min aTabsCount bTabsCount
    let spacesDiffCnt := max aSpacesCnt bSpacesCnt - min aSpacesCnt bSpacesCnt
    if tabsDiff = 0 then spacesDiffCnt
    else if spacesDiffCnt % tabsDiff = 0 then spacesDiffCnt / tabsDiff
    else 0

/-- The formula claim C8 states for `spacesDiff`, with tabs counted
literally as tab characters. -/
def spacesDiffSpec (a : List Char) (aLength : Nat) (b : List Char) (bLength : Nat) : Nat :=
  let i := commonPrefixCount (a.take aLength) (b.take bLength)
  let aRest := (a.take aLength).drop i
  let bRest := (b.take bLength).drop i
  let spacesA := aRest.countP (fun c => c == ' ')
  let tabsA := aRest.countP (fun c => c == '\t')
  let spacesB := bRest.countP (fun c => c == ' ')
  let tabsB := bRest.countP (fun c => c == '\t')
  if (spacesA > 0 ∧ tabsA > 0) ∨ (spacesB > 0 ∧ tabsB > 0) then 0
  else
    let t := max tabsA tabsB - min tabsA tabsB
    let s := max spacesA spacesB - min spacesA spacesB
    if t = 0 then s
    else if s % t = 0 then s / t
    else 0

/-- On a list of spaces and tabs, counting non-spaces is counting tabs. -/
theorem countP_ne_space_eq_countP_tab (l : List Char)
    (hl : ∀ c ∈ l, c = ' ' ∨ c = '\t') :
    l.countP (fun c => c != ' ') = l.countP (fun c => c == '\t') := by
  induction l with
  | nil => rfl
  | cons c cs ih =>
    have hc := hl c (List.mem_cons_self c cs)
    have hcs : ∀ x ∈ cs, x = ' ' ∨ x = '\t' := fun x hx => hl x (List.mem_cons_of_mem c hx)
    rcases hc with h | h <;> subst h <;>
      simp [List.countP_cons, ih hcs]

/-- Two sequential mixed-side bailouts equal one disjunctive bailout. -/
theorem chainedIfEqOrIf (aS aT bS bT E : Nat) :
    (if aS > 0 ∧ aT > 0 then 0 else if bS > 0 ∧ bT > 0 then 0 else E) =
      (if (aS > 0 ∧ aT > 0) ∨ (bS > 0 ∧ bT > 0) then 0 else E) := by
  by_cases h1 : aS > 0 ∧ aT > 0 <;> by_cases h2 : bS > 0 ∧ bT > 0 <;> simp [h1, h2]

/-- C8: for indentations made of spaces and tabs, `spacesDiff` first skips
the common leading prefix; if a remaining side mixes spaces and tabs it
returns 0; otherwise with `t = |tabsA - tabsB|` and `s = |spacesA - spacesB|`
it returns `s` when `t = 0`, `s / t` when `t > 0` divides `s`, and 0
otherwise — the formula of `spacesDiffSpec`. -/
theorem C8_spacesDiff_characterization (a b : List Char) (aLength bLength : Nat)
    (ha : ∀ c ∈ a.take aLength, c = ' ' ∨ c = '\t')
    (hb : ∀ c ∈ b.take bLength, c = ' ' ∨ c = '\t') :
    spacesDiff a aLength b bLength = spacesDiffSpec a aLength b bLength := by
  have ha2 : ∀ c ∈ (a.take aLength).drop (commonPrefixCount (a.take aLength) (b.take bLength)),
      c = ' ' ∨ c = '\t' :=
    fun c hc => ha c (List.drop_subset _ _ hc)
  have hb2 : ∀ c ∈ (b.take bLength).drop (commonPrefixCount (a.take aLength) (b.take bLength)),
      c = ' ' ∨ c = '\t' :=
    fun c hc => hb c (List.drop_subset _ _ hc)
  simp only [spacesDiff, spacesDiffSpec]
  rw [countP_ne_space_eq_countP_tab _ ha2, countP_ne_space_eq_countP_tab _ hb2]
  exact chainedIfEqOrIf _ _ _ _ _

/-- Witness for C8: the source's own doc-comment example, `a = "\t"` against
`b = "\t    "`, where the answer is 4. -/
theorem C8_spacesDiff_witness :
    spacesDiff "\t".toList 1 "\t    ".toList 5 = spacesDiffSpec "\t".toList 1 "\t    ".toList 5 ∧
    spacesDiff "\t".toList 1 "\t    ".toList 5 = 4 :=
  ⟨C8_spacesDiff_characterization "\t".toList "\t    ".toList 1 5 (by decide) (by decide),
   by decide⟩

/-! ## Claim C5 -/

/-- The start position claim C5 demands: shifted by the previous operation's
delta against the previous result range — same end line means a column
shift, a different line means a line shift. -/
def c5StartOf (prev : Option (ValidatedOp × Range)) (op : ValidatedOp) : Int × Int :=
  match prev with
  | some (prevOp, prevResult) =>
    if prevOp.range.endLineNumber = op.range.startLineNumber then
      (prevResult.endLineNumber,
       prevResult.endColumn + (op.range.startColumn - prevOp.range.endColumn))
    else
      (prevResult.endLineNumber + (op.range.startLineNumber - prevOp.range.endLineNumber),
       op.range.startColumn)
  | none => (op.range.startLineNumber, op.range.startColumn)

/-- The range claim C5 demands for an operation inserting `k` lines: empty
at the computed start for `k = 0`; same line with end column
`start + first line length` for `k = 1`; end line `start + k - 1` with end
column `last line length + 1` for `k > 1`. -/
def c5RangeOf (op : ValidatedOp) (startLineNumber startColumn : Int) : Range :=
  let k : Nat := match op.lines with | some ls => ls.length | none => 0
  if k = 0 then
    { startLineNumber := startLineNumber, startColumn := startColumn,
      endLineNumber := startLineNumber, endColumn := startColumn }
  else if k = 1 then
    { startLineNumber := startLineNumber, startColumn := startColumn,
      endLineNumber := startLineNumber,
      endColumn := startColumn + (((op.lines.getD []).headD []).length : Int) }
  else
    { startLineNumber := startLineNumber, startColumn := startColumn,
      endLineNumber := startLineNumber + (k : Int) - 1,
      endColumn := (((op.lines.getD []).getLastD []).length : Int) + 1 }

/-- The whole inverse-range list claim C5 demands, threading each result
range to the next operation's start shift. -/
def c5ExpectedLoop : List ValidatedOp → Option (ValidatedOp × Range) → List Range
  | [], _ => []
  | op :: rest, prev =>
    let s := c5StartOf prev op
    let r := c5RangeOf op s.1 s.2
    r :: c5ExpectedLoop rest (some (op, r))

def c5Expected (operations : List ValidatedOp) : List Range :=
  c5ExpectedLoop operations none

/-- The per-operation result range of the source agrees with the claim's
three-case description. -/
theorem invRangeOf_eq_c5RangeOf (op : ValidatedOp) (sl sc : Int) :
    invRangeOf op sl sc = c5RangeOf op sl sc := by
  rcases hop : op.lines with _ | ls
  · simp [invRangeOf, c5RangeOf, hop]
  · rcases ls with _ | ⟨l1, ls1⟩
    · simp [invRangeOf, c5RangeOf, hop]
    · rcases ls1 with _ | ⟨l2, ls2⟩
      · simp [invRangeOf, c5RangeOf, hop]
      · simp [invRangeOf, c5RangeOf, hop]

/-- The source's start shift agrees with the claim's, when the carried pair
is the previous result range's end. -/
theorem invStartOf_eq_c5StartOf (prev : Option (ValidatedOp × Range)) (op : ValidatedOp) :
    invStartOf (prev.map (fun p => (p.1, p.2.endLineNumber, p.2.endColumn))) op =
      c5StartOf prev op := by
  rcases prev with _ | ⟨⟨prevOp, r⟩⟩ <;> rfl

theorem getInverseEditRangesLoop_eq_c5ExpectedLoop (ops : List ValidatedOp) :
    ∀ prev : Option (ValidatedOp × Range),
      getInverseEditRangesLoop ops (prev.map (fun p => (p.1, p.2.endLineNumber, p.2.endColumn))) =
        c5ExpectedLoop ops prev := by
  induction ops with
  | nil => intro prev; rfl
  | cons op rest ih =>
    intro prev
    simp only [getInverseEditRangesLoop, c5ExpectedLoop]
    rw [invStartOf_eq_c5StartOf, invRangeOf_eq_c5RangeOf]
    have h := ih (some (op, c5RangeOf op (c5StartOf prev op).1 (c5StartOf prev op).2))
    simpa using h

/-- C5: `_getInverseEditRanges` returns exactly the ranges the claim
describes — for each operation a range at the start position shifted by the
previous operation's delta (same end line: column shift; different line:
line shift), empty for no insertion, ending at `start column + first line
length` for one inserted line, and at line `start + k - 1`, column
`last line length + 1` for `k > 1` inserted lines. -/
theorem C5_getInverseEditRanges_matches_claim (operations : List ValidatedOp) :
    getInverseEditRanges operations = c5Expected operations := by
  have h := getInverseEditRangesLoop_eq_c5ExpectedLoop operations none
  simpa [getInverseEditRanges, c5Expected] using h
